import Mathlib

/-!
Shallow embedding of the authenticated todo application (Express + Drizzle):
credential hashing (server/auth.ts), the identity/todo store
(server/storage.ts), and the thin API routes (server/routes.ts,
server/auth.ts handlers).  Persistent state is modelled as explicit
lists of rows; SQL uniqueness constraints and drizzle update/delete
semantics are modelled on those lists.
-/

namespace TodoApp

deriving instance DecidableEq for Except

/-! Section: Credential verifier (server/auth.ts lines 19-37)

Passwords and stored hashes are strings of characters; byte buffers are
lists of naturals.  `scryptKdf` is a parameter standing for Node's
`scrypt(password, salt, 64)`. -/

abbrev Bytes := List Nat

/-- One lowercase hex digit, as produced by Buffer.toString("hex"). -/
def hexDigit (n : Nat) : Char :=
  if n < 10 then Char.ofNat (48 + n) else Char.ofNat (87 + n)

/-- Value of a hex digit accepted by Buffer.from(str, "hex"). -/
def hexVal (c : Char) : Option Nat :=
  if 48 ≤ c.toNat ∧ c.toNat ≤ 57 then some (c.toNat - 48)
  else if 97 ≤ c.toNat ∧ c.toNat ≤ 102 then some (c.toNat - 87)
  else if 65 ≤ c.toNat ∧ c.toNat ≤ 70 then some (c.toNat - 55)
  else none

/-- Buffer.toString("hex"): two lowercase hex digits per byte. -/
def hexEncode : Bytes → List Char
  | [] => []
  | b :: rest => hexDigit (b / 16) :: hexDigit (b % 16) :: hexEncode rest

/-- Buffer.from(str, "hex"): consumes pairs of hex digits, stopping at the
first invalid pair or odd trailing character. -/
def hexDecode : List Char → Bytes
  | c1 :: c2 :: rest =>
    match hexVal c1, hexVal c2 with
    | some h, some l => (16 * h + l) :: hexDecode rest
    | _, _ => []
  | _ => []

/-- JavaScript `s.split(".")` on a list of characters. -/
def splitOnDot : List Char → List (List Char)
  | [] => [[]]
  | c :: rest =>
    if c = '.' then [] :: splitOnDot rest
    else
      match splitOnDot rest with
      | [] => [[c]]
      | p :: ps => (c :: p) :: ps

/-- Node `crypto.timingSafeEqual`: throws when the buffer lengths differ,
otherwise compares contents. -/
def timingSafeEqual (a b : Bytes) : Except String Bool :=
  if a.length = b.length then .ok (decide (a = b))
  else .error "Input buffers must have the same byte length"

/-- `hashPassword` (auth.ts 19-23): derived key in hex, a dot, then the salt.
The random salt (`randomBytes(16).toString("hex")`) is passed explicitly. -/
def hashPassword (scryptKdf : List Char → List Char → Bytes)
    (salt password : List Char) : List Char :=
  hexEncode (scryptKdf password salt) ++ '.' :: salt

/-- `comparePasswords` (auth.ts 25-37): re-derives the key with the stored
salt and compares with `timingSafeEqual`; throws when the stored value has
no embedded salt. -/
def comparePasswords (scryptKdf : List Char → List Char → Bytes)
    (supplied stored : List Char) : Except String Bool :=
  if stored = [] ∨ '.' ∉ stored then .error "Stored password missing salt"
  else
    match splitOnDot stored with
    | hashed :: salt :: _ =>
      if salt = [] then .error "Salt missing from stored password hash"
      else timingSafeEqual (hexDecode hashed) (scryptKdf supplied salt)
    | _ => .error "Salt missing from stored password hash"

/-! Section: Data model (shared/schema.ts)

Rows of the `users` and `todos` tables.  `users.email` carries a SQL
UNIQUE constraint; `users.google_id` and `users.provider` are nullable
text columns with no uniqueness constraint.  Generated uuids are
modelled by a per-store counter. -/

structure User where
  id : String
  name : String
  email : String
  password : List Char
  googleId : Option String
  provider : Option String
  createdAt : Nat
deriving DecidableEq

structure Todo where
  id : String
  name : String
  email : Option String
  date : String
  time : String
  completed : Bool
  userId : String
  createdAt : Nat
deriving DecidableEq

structure StoreState where
  users : List User
  todos : List Todo
  nextId : Nat
deriving DecidableEq

/-- Fresh row id standing for `gen_random_uuid()`. -/
def genId (n : Nat) : String := String.mk ('u' :: Nat.toDigits 10 n)

def emptyState : StoreState := ⟨[], [], 0⟩

theorem genId_ne_nil (n : Nat) : genId n ≠ "" := by
  intro h
  have hdata : ('u' :: Nat.toDigits 10 n) = [] := congrArg String.data h
  exact List.cons_ne_nil _ _ hdata

/-! Section: Identity store (server/storage.ts) -/

/-- `DatabaseStorage.getUser` (storage.ts 50-63). -/
def getUser (st : StoreState) (id : String) : Option User :=
  if id = "" then none
  else st.users.find? (fun u => decide (u.id = id))

/-- `DatabaseStorage.getUserByEmail` (storage.ts 65-81). -/
def getUserByEmail (st : StoreState) (email : String) : Option User :=
  if email = "" then none
  else st.users.find? (fun u => decide (u.email = email))

/-- `DatabaseStorage.createUser` (storage.ts 88-93): plain insert; the
`users_email_unique` constraint rejects a duplicate email. -/
def createUser (st : StoreState) (now : Nat) (name email : String)
    (password : List Char) (googleId : Option String) :
    Except String (User × StoreState) :=
  if st.users.any (fun u => decide (u.email = email)) then
    .error "duplicate key value violates unique constraint users_email_unique"
  else
    let u : User :=
      { id := genId st.nextId, name := name, email := email,
        password := password, googleId := googleId, provider := none,
        createdAt := now }
    .ok (u, { st with users := st.users ++ [u], nextId := st.nextId + 1 })

/-- The column update applied by `createOrUpdateGoogleUser`'s update branch:
it sets `googleId` to the given subject id and `provider` to "google". -/
def gUpd (googleId : String) (u : User) : User :=
  { u with googleId := some googleId, provider := some "google" }

/-- `DatabaseStorage.createOrUpdateGoogleUser` (storage.ts 113-155): look up
by email; insert a fresh user with blank password when absent, otherwise
update `googleId`/`provider` on every row with that email and return the
first updated row. -/
def createOrUpdateGoogleUser (st : StoreState) (now : Nat) (email : String)
    (name : Option String) (googleId : String) (provider : Option String) :
    Except String (User × StoreState) :=
  match getUserByEmail st email with
  | none =>
    if st.users.any (fun u => decide (u.email = email)) then
      .error "duplicate key value violates unique constraint users_email_unique"
    else
      let u : User :=
        { id := genId st.nextId, name := name.getD "Google User",
          email := email, password := [], googleId := some googleId,
          provider := some (provider.getD "google"), createdAt := now }
      .ok (u, { st with users := st.users ++ [u], nextId := st.nextId + 1 })
  | some _ =>
    match (st.users.filter (fun u => decide (u.email = email))).head? with
    | none => .error "update returned no row"
    | some w =>
      .ok (gUpd googleId w,
        { st with users :=
            st.users.map (fun u => if u.email = email then gUpd googleId u else u) })

/-! Section: Task store (server/storage.ts 200-267) -/

/-- A PATCH body as accepted by drizzle `.set` over `Partial<Todo>`:
any subset of the todo columns, including `userId`. -/
structure TodoPatch where
  id : Option String
  name : Option String
  email : Option (Option String)
  date : Option String
  time : Option String
  completed : Option Bool
  userId : Option String
  createdAt : Option Nat
deriving DecidableEq

def emptyPatch : TodoPatch := ⟨none, none, none, none, none, none, none, none⟩

/-- Drizzle `.set(updates)`: each present field overwrites the column. -/
def applyPatch (p : TodoPatch) (t : Todo) : Todo :=
  { id := p.id.getD t.id, name := p.name.getD t.name,
    email := p.email.getD t.email, date := p.date.getD t.date,
    time := p.time.getD t.time, completed := p.completed.getD t.completed,
    userId := p.userId.getD t.userId, createdAt := p.createdAt.getD t.createdAt }

/-- `DatabaseStorage.updateTodo` (storage.ts 200-233): empty-id guard, then
an owner-scoped existence check, then an owner-scoped update returning the
first updated row (drizzle throws on an empty `set`). -/
def updateTodo (st : StoreState) (id userId : String) (p : TodoPatch) :
    Except String (Option Todo × StoreState) :=
  if id = "" ∨ userId = "" then .ok (none, st)
  else
    match st.todos.find? (fun t => decide (t.id = id ∧ t.userId = userId)) with
    | none => .ok (none, st)
    | some _ =>
      if p = emptyPatch then .error "No values to set"
      else
        let matched := st.todos.filter (fun t => decide (t.id = id ∧ t.userId = userId))
        .ok ((matched.map (applyPatch p)).head?,
          { st with todos :=
              st.todos.map (fun t =>
                if t.id = id ∧ t.userId = userId then applyPatch p t else t) })

/-- `DatabaseStorage.deleteTodo` (storage.ts 235-267): empty-id guard,
owner-scoped existence check, owner-scoped delete, result from rowCount. -/
def deleteTodo (st : StoreState) (id userId : String) : Bool × StoreState :=
  if id = "" ∨ userId = "" then (false, st)
  else
    match st.todos.find? (fun t => decide (t.id = id ∧ t.userId = userId)) with
    | none => (false, st)
    | some _ =>
      let remaining := st.todos.filter
        (fun t => decide (¬(t.id = id ∧ t.userId = userId)))
      (decide (0 < st.todos.length - remaining.length),
        { st with todos := remaining })

/-! Section: Session resolution (server/auth.ts 65-91) and the API surface

A session cookie maps to a serialized user id; `passport.deserializeUser`
re-reads the user row and clears the session (yields an unauthenticated
request) when the user no longer exists. -/

structure SessionRec where
  userId : String
deriving DecidableEq

/-- Session pipeline: `passport.session()` + `deserializeUser`.  A missing
record or a dangling user id yields an unauthenticated request. -/
def resolveSession (st : StoreState) (sess : Option SessionRec) : Option User :=
  match sess with
  | none => none
  | some s => getUser st s.userId

inductive UserResp where
  | notAuthenticated
  | okUser (u : User)
deriving DecidableEq

/-- GET /api/user (auth.ts 199-207). -/
def apiUser (st : StoreState) (sess : Option SessionRec) : UserResp :=
  match resolveSession st sess with
  | none => .notAuthenticated
  | some u => .okUser u

/-- The passport local-strategy verify callback (auth.ts 45-63): look up by
email, compare passwords; exceptions propagate to `done(err)`. -/
def localVerify (scryptKdf : List Char → List Char → Bytes) (st : StoreState)
    (email : String) (password : List Char) : Except String (Option User) :=
  match getUserByEmail st email with
  | none => .ok none
  | some user =>
    match comparePasswords scryptKdf password user.password with
    | .error e => .error e
    | .ok true => .ok (some user)
    | .ok false => .ok none

inductive LoginResp where
  | invalidCredentials
  | okUser (u : User)
  | serverError (msg : String)
deriving DecidableEq

/-- POST /api/login (auth.ts 162-175): 401 when the strategy yields no user,
`next(err)` (a 500 from the error middleware) when it throws, otherwise
`req.login` binds the session and the user is returned. -/
def loginRoute (scryptKdf : List Char → List Char → Bytes) (st : StoreState)
    (email : String) (password : List Char) : LoginResp × Option SessionRec :=
  match localVerify scryptKdf st email password with
  | .error e => (.serverError e, none)
  | .ok none => (.invalidCredentials, none)
  | .ok (some u) => (.okUser u, some ⟨u.id⟩)

inductive RegisterResp where
  | missingFields
  | emailExists
  | created (u : User)
  | serverFailure
deriving DecidableEq

/-- POST /api/register (auth.ts 130-160): required-field check, duplicate
email check, then `createUser` with the hashed password and `req.login`. -/
def registerRoute (scryptKdf : List Char → List Char → Bytes)
    (salt : List Char) (now : Nat) (st : StoreState)
    (name email : String) (password : List Char) :
    RegisterResp × Option SessionRec × StoreState :=
  if name = "" ∨ email = "" ∨ password = [] then (.missingFields, none, st)
  else
    match getUserByEmail st email with
    | some _ => (.emailExists, none, st)
    | none =>
      match createUser st now name email (hashPassword scryptKdf salt password) none with
      | .error _ => (.serverFailure, none, st)
      | .ok (u, st') => (.created u, some ⟨u.id⟩, st')

/-- The identity claims of a verified Google id token, as read from
`ticket.getPayload()`. -/
structure GooglePayload where
  email : String
  name : Option String
  sub : String
deriving DecidableEq

/-- `payload.name || "Google User"` (auth.ts 114). -/
def googleName : Option String → String
  | none => "Google User"
  | some n => if n = "" then "Google User" else n

inductive GoogleResp where
  | invalidToken
  | okUser (u : User)
  | serverFailure
deriving DecidableEq

/-- POST /api/auth/google (auth.ts 94-127), from the verified payload on:
reject a payload without email or subject, reconcile through
`createOrUpdateGoogleUser`, then `req.login` binds the session. -/
def googleAuthRoute (now : Nat) (st : StoreState) (payload : GooglePayload) :
    GoogleResp × Option SessionRec × StoreState :=
  if payload.email = "" ∨ payload.sub = "" then (.invalidToken, none, st)
  else
    match createOrUpdateGoogleUser st now payload.email
        (some (googleName payload.name)) payload.sub none with
    | .error _ => (.serverFailure, none, st)
    | .ok (u, st') => (.okUser u, some ⟨u.id⟩, st')

/-! Section: Todo routes (server/routes.ts 48-87) -/

inductive PatchResp where
  | unauthorized
  | notFound
  | okTodo (t : Todo)
  | serverError
deriving DecidableEq

/-- PATCH /api/todos/:id (routes.ts 48-67): auth gate, then `updateTodo`
with the session user's id and the raw request body as the patch. -/
def patchTodoRoute (st : StoreState) (sess : Option SessionRec)
    (id : String) (body : TodoPatch) : PatchResp × StoreState :=
  match resolveSession st sess with
  | none => (.unauthorized, st)
  | some u =>
    match updateTodo st id u.id body with
    | .error _ => (.serverError, st)
    | .ok (none, st') => (.notFound, st')
    | .ok (some t, st') => (.okTodo t, st')

inductive DeleteResp where
  | unauthorized
  | notFound
  | noContent
  | serverError
deriving DecidableEq

/-- DELETE /api/todos/:id (routes.ts 69-87). -/
def deleteTodoRoute (st : StoreState) (sess : Option SessionRec)
    (id : String) : DeleteResp × StoreState :=
  match resolveSession st sess with
  | none => (.unauthorized, st)
  | some u =>
    match deleteTodo st id u.id with
    | (false, st') => (.notFound, st')
    | (true, st') => (.noContent, st')

/-! Section: Well-formedness predicates and list lemmas -/

/-- The key `f` takes pairwise distinct values along the list. -/
def NoDupBy (f : α → β) : List α → Prop
  | [] => True
  | a :: rest => (∀ b ∈ rest, f a ≠ f b) ∧ NoDupBy f rest

instance noDupByDec [DecidableEq β] (f : α → β) :
    (l : List α) → Decidable (NoDupBy f l)
  | [] => .isTrue trivial
  | a :: rest =>
    @instDecidableAnd _ _ (List.decidableBAll _ rest) (noDupByDec f rest)

theorem noDupBy_key_eq {f : α → β} :
    ∀ {l : List α}, NoDupBy f l → ∀ {a b : α}, a ∈ l → b ∈ l → f a = f b → a = b
  | [], _, _, _, ha, _, _ => absurd ha (List.not_mem_nil _)
  | c :: rest, h, a, b, ha, hb, hfab => by
    rcases List.mem_cons.mp ha with ha1 | ha2
    · rcases List.mem_cons.mp hb with hb1 | hb2
      · exact ha1.trans hb1.symm
      · subst ha1; exact absurd hfab (h.1 b hb2)
    · rcases List.mem_cons.mp hb with hb1 | hb2
      · subst hb1; exact absurd hfab.symm (h.1 a ha2)
      · exact noDupBy_key_eq h.2 ha2 hb2 hfab

theorem noDupBy_append_singleton {f : α → β} :
    ∀ {l : List α}, NoDupBy f l → (∀ b ∈ l, f b ≠ f a) → NoDupBy f (l ++ [a])
  | [], _, _ => ⟨fun b hb => absurd hb (List.not_mem_nil _), trivial⟩
  | c :: rest, h, hne => by
    refine ⟨fun b hb => ?_, noDupBy_append_singleton h.2 fun b hb =>
      hne b (List.mem_cons_of_mem _ hb)⟩
    rcases List.mem_append.mp hb with hb | hb
    · exact h.1 b hb
    · rcases List.mem_singleton.mp hb with rfl
      exact hne c (List.mem_cons_self _ _)

theorem noDupBy_map {f : α → β} {m : α → α} (hm : ∀ x, f (m x) = f x) :
    ∀ {l : List α}, NoDupBy f l → NoDupBy f (l.map m)
  | [], _ => trivial
  | c :: rest, h => by
    refine ⟨fun b hb => ?_, noDupBy_map hm h.2⟩
    rcases List.mem_map.mp hb with ⟨x, hx, rfl⟩
    rw [hm, hm]
    exact h.1 x hx

theorem find?_eq_none_of {p : α → Bool} :
    ∀ {l : List α}, (∀ x ∈ l, p x = false) → l.find? p = none
  | [], _ => rfl
  | c :: rest, h => by
    have hc := h c (List.mem_cons_self _ _)
    simp only [List.find?_cons, hc]
    exact find?_eq_none_of fun x hx => h x (List.mem_cons_of_mem _ hx)

theorem filter_eq_nil_of {p : α → Bool} :
    ∀ {l : List α}, (∀ x ∈ l, p x = false) → l.filter p = []
  | [], _ => rfl
  | c :: rest, h => by
    have hc := h c (List.mem_cons_self _ _)
    simp only [List.filter_cons, hc, Bool.false_eq_true, if_false]
    exact filter_eq_nil_of fun x hx => h x (List.mem_cons_of_mem _ hx)

theorem find?_append_none {p : α → Bool} {l₂ : List α} :
    ∀ {l : List α}, l.find? p = none → (l ++ l₂).find? p = l₂.find? p
  | [], _ => rfl
  | c :: rest, h => by
    simp only [List.find?_cons] at h ⊢
    cases hc : p c with
    | true => rw [hc] at h; exact absurd h (by simp)
    | false =>
      rw [hc] at h
      simpa [hc] using find?_append_none (l := rest) h

theorem find?_eq_head?_filter (p : α → Bool) :
    ∀ l : List α, l.find? p = (l.filter p).head?
  | [] => rfl
  | c :: rest => by
    simp only [List.find?_cons, List.filter_cons]
    cases hc : p c with
    | true => simp
    | false => simpa using find?_eq_head?_filter p rest

/-- The first element whose key matches a known member's key is that member,
when keys are duplicate-free. -/
theorem find?_key_self [DecidableEq β] {f : α → β} :
    ∀ {l : List α}, NoDupBy f l → ∀ {a : α}, a ∈ l →
      l.find? (fun x => decide (f x = f a)) = some a
  | [], _, _, ha => absurd ha (List.not_mem_nil _)
  | c :: rest, h, a, ha => by
    rcases List.mem_cons.mp ha with rfl | ha
    · simp [List.find?_cons]
    · have hca : (decide (f c = f a)) = false := by
        simpa using h.1 a ha
      simp only [List.find?_cons, hca]
      exact find?_key_self h.2 ha

/-- Finding by a member's key in a mapped list, when the map preserves keys
and keys are duplicate-free, yields the image of that member. -/
theorem find?_key_map [DecidableEq β] {f : α → β} {m : α → α}
    (hm : ∀ x, f (m x) = f x) :
    ∀ {l : List α}, NoDupBy f l → ∀ {a : α}, a ∈ l →
      (l.map m).find? (fun x => decide (f x = f a)) = some (m a)
  | [], _, _, ha => absurd ha (List.not_mem_nil _)
  | c :: rest, h, a, ha => by
    rcases List.mem_cons.mp ha with rfl | ha
    · simp [List.find?_cons, hm]
    · have hca : (decide (f (m c) = f a)) = false := by
        rw [hm c]; simpa using h.1 a ha
      simp only [List.map_cons, List.find?_cons, hca]
      exact find?_key_map hm h.2 ha

theorem filter_key_self [DecidableEq β] {f : α → β} :
    ∀ {l : List α}, NoDupBy f l → ∀ {a : α}, a ∈ l →
      l.filter (fun x => decide (f x = f a)) = [a]
  | [], _, _, ha => absurd ha (List.not_mem_nil _)
  | c :: rest, h, a, ha => by
    rcases List.mem_cons.mp ha with rfl | ha
    · have hrest : rest.filter (fun x => decide (f x = f a)) = [] :=
        filter_eq_nil_of fun x hx => by
          simpa using (h.1 x hx).symm
      simp [List.filter_cons, hrest]
    · have hca : (decide (f c = f a)) = false := by
        simpa using h.1 a ha
      simp only [List.filter_cons, hca, Bool.false_eq_true, if_false]
      exact filter_key_self h.2 ha

theorem filter_of_map {m : α → α} {p : α → Bool} (hp : ∀ x, p (m x) = p x) :
    ∀ l : List α, (l.map m).filter p = (l.filter p).map m
  | [] => rfl
  | c :: rest => by
    simp only [List.map_cons, List.filter_cons, hp c]
    cases hc : p c with
    | true => simpa using filter_of_map hp rest
    | false => simpa using filter_of_map hp rest

theorem map_congr_id {m : α → α} :
    ∀ {l : List α}, (∀ x ∈ l, m x = x) → l.map m = l
  | [], _ => rfl
  | c :: rest, h => by
    simp only [List.map_cons]
    rw [h c (List.mem_cons_self _ _), map_congr_id fun x hx => h x (List.mem_cons_of_mem _ hx)]

theorem head?_mem : ∀ {l : List α} {a : α}, l.head? = some a → a ∈ l
  | [], _, h => by cases h
  | b :: t, a, h => by
    rw [List.head?_cons] at h
    injection h with h
    exact h ▸ List.mem_cons_self _ _

theorem find?_isSome_of {p : α → Bool} :
    ∀ {l : List α}, ∀ {x : α}, x ∈ l → p x = true → ∃ y, l.find? p = some y
  | [], _, hx, _ => absurd hx (List.not_mem_nil _)
  | c :: rest, x, hx, hp => by
    simp only [List.find?_cons]
    cases hc : p c with
    | true => exact ⟨c, rfl⟩
    | false =>
      rcases List.mem_cons.mp hx with rfl | hx
      · rw [hp] at hc; cases hc
      · exact find?_isSome_of hx hp

/-! Section: Claim C1 -/

/-- C1: for two distinct users U1 and U2 and a task T owned by U1, an update
of T acting as U2 returns the empty result and a delete returns false — the
routes answer 404 — and the store, in particular T's record, is unchanged. -/
theorem C1_cross_owner_mutation_rejected (st : StoreState) (u1 u2 : User)
    (t : Todo) (p : TodoPatch)
    (hidsU : NoDupBy User.id st.users) (hidsT : NoDupBy Todo.id st.todos)
    (hu1 : u1 ∈ st.users) (hu2 : u2 ∈ st.users) (hne : u1 ≠ u2)
    (hu2ne : u2.id ≠ "") (ht : t ∈ st.todos) (hown : t.userId = u1.id) :
    updateTodo st t.id u2.id p = .ok (none, st) ∧
    deleteTodo st t.id u2.id = (false, st) ∧
    patchTodoRoute st (some ⟨u2.id⟩) t.id p = (.notFound, st) ∧
    deleteTodoRoute st (some ⟨u2.id⟩) t.id = (.notFound, st) := by
  have hid12 : u1.id ≠ u2.id := fun h => hne (noDupBy_key_eq hidsU hu1 hu2 h)
  have hfind :
      st.todos.find? (fun x => decide (x.id = t.id ∧ x.userId = u2.id)) = none :=
    find?_eq_none_of fun x hx => by
      simp only [decide_eq_false_iff_not]
      rintro ⟨hxid, hxu⟩
      have hxt : x = t := noDupBy_key_eq hidsT hx ht hxid
      rw [hxt, hown] at hxu
      exact hid12 hxu
  have hupd : updateTodo st t.id u2.id p = .ok (none, st) := by
    by_cases h0 : t.id = "" ∨ u2.id = ""
    · unfold updateTodo; rw [if_pos h0]
    · unfold updateTodo; rw [if_neg h0, hfind]
  have hdel : deleteTodo st t.id u2.id = (false, st) := by
    by_cases h0 : t.id = "" ∨ u2.id = ""
    · unfold deleteTodo; rw [if_pos h0]
    · unfold deleteTodo; rw [if_neg h0, hfind]
  have hsess : resolveSession st (some ⟨u2.id⟩) = some u2 := by
    show getUser st u2.id = some u2
    unfold getUser
    rw [if_neg hu2ne]
    exact find?_key_self hidsU hu2
  refine ⟨hupd, hdel, ?_, ?_⟩
  · simp only [patchTodoRoute, hsess, hupd]
  · simp only [deleteTodoRoute, hsess, hdel]

/-! Concrete data used by the witnesses. -/

def wU1 : User := ⟨"u1", "Alice", "a@x.com", [], none, none, 0⟩

def wU2 : User := ⟨"u2", "Bob", "b@x.com", [], none, none, 0⟩

def wT : Todo := ⟨"t1", "Buy milk", none, "2024-01-01", "09:00", false, "u1", 0⟩

def wSt : StoreState := ⟨[wU1, wU2], [wT], 3⟩

def wPatchCompleted : TodoPatch :=
  ⟨none, none, none, none, none, some true, none, none⟩

/-- Witness for C1 at a concrete two-user store. -/
theorem C1_cross_owner_mutation_rejected_witness :
    (NoDupBy User.id wSt.users ∧ NoDupBy Todo.id wSt.todos ∧
      wU1 ∈ wSt.users ∧ wU2 ∈ wSt.users ∧ wU1 ≠ wU2 ∧ wU2.id ≠ "" ∧
      wT ∈ wSt.todos ∧ wT.userId = wU1.id) ∧
    updateTodo wSt wT.id wU2.id wPatchCompleted = .ok (none, wSt) ∧
    deleteTodo wSt wT.id wU2.id = (false, wSt) ∧
    patchTodoRoute wSt (some ⟨wU2.id⟩) wT.id wPatchCompleted = (.notFound, wSt) ∧
    deleteTodoRoute wSt (some ⟨wU2.id⟩) wT.id = (.notFound, wSt) :=
  ⟨by decide,
    C1_cross_owner_mutation_rejected wSt wU1 wU2 wT wPatchCompleted
      (by decide) (by decide) (by decide) (by decide) (by decide) (by decide)
      (by decide) (by decide)⟩

/-! Section: Crypto lemmas -/

theorem hexDigit_ne_dot : ∀ n, n < 16 → hexDigit n ≠ '.' := by decide

theorem hexVal_hexDigit : ∀ n, n < 16 → hexVal (hexDigit n) = some n := by decide

theorem hexEncode_no_dot :
    ∀ {bs : Bytes}, (∀ b ∈ bs, b < 256) → '.' ∉ hexEncode bs
  | [], _ => List.not_mem_nil _
  | b :: rest, h => by
    have hb : b < 256 := h b (List.mem_cons_self _ _)
    have hdiv : b / 16 < 16 := Nat.div_lt_of_lt_mul hb
    have hmod : b % 16 < 16 := Nat.mod_lt _ (by norm_num)
    intro hmem
    rcases List.mem_cons.mp hmem with h1 | hmem
    · exact hexDigit_ne_dot _ hdiv h1.symm
    rcases List.mem_cons.mp hmem with h2 | hmem
    · exact hexDigit_ne_dot _ hmod h2.symm
    · exact hexEncode_no_dot (fun x hx => h x (List.mem_cons_of_mem _ hx)) hmem

theorem hexDecode_hexEncode :
    ∀ {bs : Bytes}, (∀ b ∈ bs, b < 256) → hexDecode (hexEncode bs) = bs
  | [], _ => rfl
  | b :: rest, h => by
    have hb : b < 256 := h b (List.mem_cons_self _ _)
    have hdiv : b / 16 < 16 := Nat.div_lt_of_lt_mul hb
    have hmod : b % 16 < 16 := Nat.mod_lt _ (by norm_num)
    show hexDecode (hexDigit (b / 16) :: hexDigit (b % 16) :: hexEncode rest) = b :: rest
    unfold hexDecode
    rw [hexVal_hexDigit _ hdiv, hexVal_hexDigit _ hmod]
    simp only
    have hbeq : 16 * (b / 16) + b % 16 = b := by omega
    rw [hbeq, hexDecode_hexEncode fun x hx => h x (List.mem_cons_of_mem _ hx)]

theorem splitOnDot_cons (c : Char) (rest : List Char) :
    splitOnDot (c :: rest) =
      if c = '.' then [] :: splitOnDot rest
      else
        match splitOnDot rest with
        | [] => [[c]]
        | p :: ps => (c :: p) :: ps := rfl

theorem splitOnDot_no_dot :
    ∀ {b : List Char}, '.' ∉ b → splitOnDot b = [b]
  | [], _ => rfl
  | c :: rest, h => by
    have hc : ¬(c = '.') := fun hceq => h (hceq ▸ List.mem_cons_self _ _)
    have hrest : splitOnDot rest = [rest] :=
      splitOnDot_no_dot fun hr => h (List.mem_cons_of_mem _ hr)
    rw [splitOnDot_cons, if_neg hc, hrest]

theorem splitOnDot_append_dot :
    ∀ {a : List Char} (b : List Char), '.' ∉ a →
      splitOnDot (a ++ '.' :: b) = a :: splitOnDot b
  | [], b, _ => by
    show splitOnDot ('.' :: b) = [] :: splitOnDot b
    rw [splitOnDot_cons, if_pos rfl]
  | c :: rest, b, h => by
    have hc : ¬(c = '.') := fun hceq => h (hceq ▸ List.mem_cons_self _ _)
    have hrest := splitOnDot_append_dot (a := rest) b
      fun hr => h (List.mem_cons_of_mem _ hr)
    show splitOnDot (c :: (rest ++ '.' :: b)) = (c :: rest) :: splitOnDot b
    rw [splitOnDot_cons, if_neg hc, hrest]

/-- Verifying any supplied password against `hashPassword scryptKdf salt p0`
reduces to a constant-time comparison of the two derived keys. -/
theorem comparePasswords_hashPassword (scryptKdf : List Char → List Char → Bytes)
    (salt supplied p0 : List Char) (hsalt : salt ≠ []) (hdot : '.' ∉ salt)
    (hbytes : ∀ b ∈ scryptKdf p0 salt, b < 256) :
    comparePasswords scryptKdf supplied (hashPassword scryptKdf salt p0) =
      timingSafeEqual (scryptKdf p0 salt) (scryptKdf supplied salt) := by
  have hmem : '.' ∈ hexEncode (scryptKdf p0 salt) ++ '.' :: salt :=
    List.mem_append_right _ (List.mem_cons_self _ _)
  have hguard :
      ¬(hexEncode (scryptKdf p0 salt) ++ '.' :: salt = [] ∨
        '.' ∉ hexEncode (scryptKdf p0 salt) ++ '.' :: salt) := by
    rintro (hnil | hno)
    · rw [hnil] at hmem; exact List.not_mem_nil _ hmem
    · exact hno hmem
  unfold hashPassword comparePasswords
  rw [if_neg hguard, splitOnDot_append_dot salt (hexEncode_no_dot hbytes),
    splitOnDot_no_dot hdot]
  simp only
  rw [if_neg hsalt, hexDecode_hexEncode hbytes]

/-! Section: Claim C5 -/

/-- C5: password hashing round-trips with verification — verifying p against
hash(p) yields true, and verifying a different q yields false provided the
key-derivation function does not collide on the two passwords at this salt
(and derives keys of the stated fixed length, as scrypt does). -/
theorem C5_hash_verify_roundtrip (scryptKdf : List Char → List Char → Bytes)
    (salt p q : List Char) (hsalt : salt ≠ []) (hdot : '.' ∉ salt)
    (hbytes : ∀ b ∈ scryptKdf p salt, b < 256) :
    comparePasswords scryptKdf p (hashPassword scryptKdf salt p) = .ok true ∧
    (q ≠ p → scryptKdf q salt ≠ scryptKdf p salt →
      (scryptKdf q salt).length = (scryptKdf p salt).length →
      comparePasswords scryptKdf q (hashPassword scryptKdf salt p) = .ok false) := by
  constructor
  · rw [comparePasswords_hashPassword scryptKdf salt p p hsalt hdot hbytes]
    unfold timingSafeEqual
    rw [if_pos rfl]
    simp
  · intro _ hne hlen
    rw [comparePasswords_hashPassword scryptKdf salt q p hsalt hdot hbytes]
    unfold timingSafeEqual
    rw [if_pos hlen.symm]
    have : (decide (scryptKdf p salt = scryptKdf q salt)) = false := by
      simp only [decide_eq_false_iff_not]
      exact fun h => hne h.symm
    rw [this]

/-- A concrete stand-in for the scrypt key-derivation function, used by
witnesses: one byte recording the password length. -/
def kdf0 : List Char → List Char → Bytes := fun p _ => [p.length % 256]

/-- Witness for C5: concrete passwords "secret" and "ab" under `kdf0`. -/
theorem C5_hash_verify_roundtrip_witness :
    ("ab".data ≠ [] ∧ '.' ∉ "ab".data ∧ (∀ b ∈ kdf0 "secret".data "ab".data, b < 256) ∧
      "xy".data ≠ "secret".data ∧
      kdf0 "xy".data "ab".data ≠ kdf0 "secret".data "ab".data ∧
      (kdf0 "xy".data "ab".data).length = (kdf0 "secret".data "ab".data).length) ∧
    comparePasswords kdf0 "secret".data
      (hashPassword kdf0 "ab".data "secret".data) = .ok true ∧
    comparePasswords kdf0 "xy".data
      (hashPassword kdf0 "ab".data "secret".data) = .ok false :=
  ⟨by decide,
    (C5_hash_verify_roundtrip kdf0 "ab".data "secret".data "xy".data
      (by decide) (by decide) (by decide)).1,
    (C5_hash_verify_roundtrip kdf0 "ab".data "secret".data "xy".data
      (by decide) (by decide) (by decide)).2 (by decide) (by decide) (by decide)⟩

/-! Section: Claim C3 -/

/-- A user created purely via Google sign-in: blank stored password. -/
def wGUser : User := ⟨"u3", "Carol", "g@x.com", [], some "G9", some "google", 7⟩

def wStG : StoreState := ⟨[wGUser], [], 1⟩

/-- C3 counterexample: a login attempt against an external-identity account
with an empty stored password hash does not produce the uniform 401 —
`comparePasswords` throws and the request ends in a 500 server error,
revealing that the email exists and belongs to an external account. -/
theorem C3_counterexample :
    loginRoute kdf0 wStG "g@x.com" "secret".data =
      (.serverError "Stored password missing salt", none) ∧
    loginRoute kdf0 wStG "g@x.com" "secret".data ≠
      (.invalidCredentials, none) := by
  constructor
  · rfl
  · intro h
    rw [(rfl : loginRoute kdf0 wStG "g@x.com" "secret".data =
      (.serverError "Stored password missing salt", none))] at h
    cases h

/-- C3 (amended): for an unregistered email or a wrong password against a
locally-registered account (well-formed stored hash), the login route
answers the same 401 InvalidCredentials, so the two runs are
indistinguishable; the empty-hash external-account case is excluded as it
surfaces a 500 instead. -/
theorem C3_uniform_invalid_credentials
    (scryptKdf : List Char → List Char → Bytes) (st : StoreState)
    (eAbsent eWrong : String) (pw p0 salt : List Char) (u : User)
    (habs : getUserByEmail st eAbsent = none)
    (hfound : getUserByEmail st eWrong = some u)
    (hpw : u.password = hashPassword scryptKdf salt p0)
    (hsalt : salt ≠ []) (hdot : '.' ∉ salt)
    (hbytes : ∀ b ∈ scryptKdf p0 salt, b < 256)
    (hne : scryptKdf pw salt ≠ scryptKdf p0 salt)
    (hlen : (scryptKdf pw salt).length = (scryptKdf p0 salt).length) :
    loginRoute scryptKdf st eAbsent pw = (.invalidCredentials, none) ∧
    loginRoute scryptKdf st eWrong pw = (.invalidCredentials, none) := by
  constructor
  · unfold loginRoute localVerify
    rw [habs]
  · have hcmp : comparePasswords scryptKdf pw u.password = .ok false := by
      rw [hpw, comparePasswords_hashPassword scryptKdf salt pw p0 hsalt hdot hbytes]
      unfold timingSafeEqual
      rw [if_pos hlen.symm]
      have hdec : (decide (scryptKdf p0 salt = scryptKdf pw salt)) = false := by
        simp only [decide_eq_false_iff_not]
        exact fun h => hne h.symm
      rw [hdec]
    simp only [loginRoute, localVerify, hfound, hcmp]

/-- A locally-registered user whose password is "secret" hashed under `kdf0`
with salt "ab". -/
def wLocalUser : User :=
  ⟨"u4", "Dave", "d@x.com", hashPassword kdf0 "ab".data "secret".data,
    none, none, 3⟩

def wStL : StoreState := ⟨[wLocalUser], [], 2⟩

/-- Witness for the amended C3: an absent email and a wrong password against
the concrete local user produce the same 401 response. -/
theorem C3_uniform_invalid_credentials_witness :
    (getUserByEmail wStL "nobody@x.com" = none ∧
      getUserByEmail wStL "d@x.com" = some wLocalUser ∧
      wLocalUser.password = hashPassword kdf0 "ab".data "secret".data ∧
      kdf0 "xy".data "ab".data ≠ kdf0 "secret".data "ab".data) ∧
    loginRoute kdf0 wStL "nobody@x.com" "xy".data = (.invalidCredentials, none) ∧
    loginRoute kdf0 wStL "d@x.com" "xy".data = (.invalidCredentials, none) :=
  ⟨by decide,
    C3_uniform_invalid_credentials kdf0 wStL "nobody@x.com" "d@x.com"
      "xy".data "secret".data "ab".data wLocalUser (by decide) (by decide)
      (by decide) (by decide) (by decide) (by decide) (by decide) (by decide)⟩

/-! Section: Claim C2 -/

/-- A PATCH body carrying only a `userId` field, as accepted by the route. -/
def wPatchSteal : TodoPatch :=
  ⟨none, none, none, none, none, none, some "u2", none⟩

/-- C2 counterexample: the PATCH route hands the raw request body to the
drizzle `set`, so the owner of a task can submit a body whose `userId`
field reassigns the stored owner: the update succeeds (200) and the task's
stored ownerId afterwards is the body-supplied value, not the acting
user's id. -/
theorem C2_counterexample :
    patchTodoRoute wSt (some ⟨wU1.id⟩) wT.id wPatchSteal =
      (.okTodo ⟨"t1", "Buy milk", none, "2024-01-01", "09:00", false, "u2", 0⟩,
        ⟨[wU1, wU2],
          [⟨"t1", "Buy milk", none, "2024-01-01", "09:00", false, "u2", 0⟩], 3⟩) ∧
    ("u2" : String) ≠ wU1.id := by
  constructor
  · rfl
  · decide

/-- C2 (amended): the acting user id is derived solely from the
session-resolved user — a body-supplied `userId`, even one naming the
task's true owner, cannot make a non-owner's update succeed: the request
still answers 404 and the store is unchanged.  (A body `userId` on an
owner's own successful update is, however, applied as a patch field and
reassigns the stored owner, as the counterexample shows.) -/
theorem C2_session_user_scopes_update (st : StoreState) (u2 : User)
    (t : Todo) (p : TodoPatch)
    (hidsU : NoDupBy User.id st.users) (hidsT : NoDupBy Todo.id st.todos)
    (hu2 : u2 ∈ st.users) (hu2ne : u2.id ≠ "") (ht : t ∈ st.todos)
    (hnotOwner : u2.id ≠ t.userId) (hbody : p.userId = some t.userId) :
    patchTodoRoute st (some ⟨u2.id⟩) t.id p = (.notFound, st) := by
  have hfind :
      st.todos.find? (fun x => decide (x.id = t.id ∧ x.userId = u2.id)) = none :=
    find?_eq_none_of fun x hx => by
      simp only [decide_eq_false_iff_not]
      rintro ⟨hxid, hxu⟩
      have hxt : x = t := noDupBy_key_eq hidsT hx ht hxid
      rw [hxt] at hxu
      exact hnotOwner hxu.symm
  have hupd : updateTodo st t.id u2.id p = .ok (none, st) := by
    by_cases h0 : t.id = "" ∨ u2.id = ""
    · unfold updateTodo; rw [if_pos h0]
    · unfold updateTodo; rw [if_neg h0, hfind]
  have hsess : resolveSession st (some ⟨u2.id⟩) = some u2 := by
    show getUser st u2.id = some u2
    unfold getUser
    rw [if_neg hu2ne]
    exact find?_key_self hidsU hu2
  simp only [patchTodoRoute, hsess, hupd]

/-- Witness for the amended C2: Bob sends a body naming Alice's id on
Alice's task and still gets 404 with nothing changed. -/
theorem C2_session_user_scopes_update_witness :
    (NoDupBy User.id wSt.users ∧ NoDupBy Todo.id wSt.todos ∧
      wU2 ∈ wSt.users ∧ wU2.id ≠ "" ∧ wT ∈ wSt.todos ∧
      wU2.id ≠ wT.userId ∧
      (⟨none, none, none, none, none, none, some "u1", none⟩ : TodoPatch).userId =
        some wT.userId) ∧
    patchTodoRoute wSt (some ⟨wU2.id⟩) wT.id
      ⟨none, none, none, none, none, none, some "u1", none⟩ = (.notFound, wSt) :=
  ⟨by decide,
    C2_session_user_scopes_update wSt wU2 wT
      ⟨none, none, none, none, none, none, some "u1", none⟩
      (by decide) (by decide) (by decide) (by decide) (by decide) (by decide)
      (by decide)⟩

/-! Section: Claim C4 -/

def c4A : User := ⟨"u0", "Google User", "a@x.com", [], some "G7", some "google", 0⟩

def c4StA : StoreState := ⟨[c4A], [], 1⟩

def c4B : User := ⟨"u1", "Google User", "b@x.com", [], some "G7", some "google", 1⟩

def c4StB : StoreState := ⟨[c4A, c4B], [], 2⟩

/-- C4 counterexample: `google_id` carries no uniqueness constraint and
`createOrUpdateGoogleUser` keys its reconciliation on the email alone, so
presenting the same googleId with two different emails creates two distinct
stored users carrying the same non-empty googleId. -/
theorem C4_counterexample :
    createOrUpdateGoogleUser emptyState 0 "a@x.com" none "G7" none =
      .ok (c4A, c4StA) ∧
    createOrUpdateGoogleUser c4StA 1 "b@x.com" none "G7" none =
      .ok (c4B, c4StB) ∧
    c4A ∈ c4StB.users ∧ c4B ∈ c4StB.users ∧ c4A ≠ c4B ∧
    c4A.googleId = some "G7" ∧ c4B.googleId = some "G7" := by
  decide

/-- Store states reachable from the empty store through the identity-store
operations `createUser` and `createOrUpdateGoogleUser` (failing calls leave
the store unchanged, so only successful steps matter). -/
inductive Reach : StoreState → Prop where
  | init : Reach emptyState
  | stepCreate {st : StoreState} {now : Nat} {n e : String} {pw : List Char}
      {g : Option String} {u : User} {st' : StoreState} :
      Reach st → createUser st now n e pw g = .ok (u, st') → Reach st'
  | stepGoogle {st : StoreState} {now : Nat} {e : String} {nm : Option String}
      {g : String} {pr : Option String} {u : User} {st' : StoreState} :
      Reach st → createOrUpdateGoogleUser st now e nm g pr = .ok (u, st') →
      Reach st'

/-- C4 (amended): the store does not enforce googleId uniqueness (see the
counterexample), but along the identity-store operations every reachable
state keeps at most one user per email: the email column's uniqueness
constraint guards both inserts, and the update branch never changes an
email. -/
theorem C4_email_uniqueness_invariant {st : StoreState} (h : Reach st) :
    NoDupBy User.email st.users := by
  induction h with
  | init => trivial
  | stepCreate hr heq ih =>
    unfold createUser at heq
    split at heq
    · exact absurd heq (by simp)
    next hc =>
      cases heq
      refine noDupBy_append_singleton ih fun b hb => ?_
      simp at hc
      exact hc b hb
  | stepGoogle hr heq ih =>
    unfold createOrUpdateGoogleUser at heq
    split at heq
    · split at heq
      · exact absurd heq (by simp)
      next hc =>
        cases heq
        refine noDupBy_append_singleton ih fun b hb => ?_
        simp at hc
        exact hc b hb
    · split at heq
      · exact absurd heq (by simp)
      · cases heq
        refine noDupBy_map (fun x => ?_) ih
        dsimp only
        split
        · rfl
        · rfl

/-- Witness for the amended C4: the one-step reachable state after a Google
sign-up has pairwise distinct emails. -/
theorem C4_email_uniqueness_invariant_witness :
    NoDupBy User.email c4StA.users :=
  C4_email_uniqueness_invariant
    (Reach.stepGoogle Reach.init
      (by decide :
        createOrUpdateGoogleUser emptyState 0 "a@x.com" none "G7" none =
          .ok (c4A, c4StA)))

/-! Section: Claim C7 -/

/-- C7: applying `createOrUpdateGoogleUser` to an email that already has a
user returns that user with `googleId` and `provider` set, leaving its id,
name, stored password hash and creation time unchanged; every user with a
different email is untouched. -/
theorem C7_google_link_frame (st : StoreState) (now : Nat) (u : User)
    (nm : Option String) (g : String) (pr : Option String)
    (hemails : NoDupBy User.email st.users) (hu : u ∈ st.users)
    (hne : u.email ≠ "") :
    createOrUpdateGoogleUser st now u.email nm g pr =
      .ok (gUpd g u,
        { st with users :=
            st.users.map (fun v => if v.email = u.email then gUpd g v else v) }) ∧
    (gUpd g u).id = u.id ∧ (gUpd g u).name = u.name ∧
    (gUpd g u).password = u.password ∧ (gUpd g u).createdAt = u.createdAt ∧
    (gUpd g u).googleId = some g ∧ (gUpd g u).provider = some "google" ∧
    (∀ v ∈ st.users, v.email ≠ u.email →
      v ∈ (st.users.map (fun w => if w.email = u.email then gUpd g w else w))) := by
  have hfindu : getUserByEmail st u.email = some u := by
    unfold getUserByEmail
    rw [if_neg hne]
    exact find?_key_self hemails hu
  have hfilter : st.users.filter (fun x => decide (x.email = u.email)) = [u] :=
    filter_key_self hemails hu
  refine ⟨?_, rfl, rfl, rfl, rfl, rfl, rfl, ?_⟩
  · unfold createOrUpdateGoogleUser
    rw [hfindu]
    simp only
    rw [hfilter]
    rfl
  · intro v hv hvne
    refine List.mem_map.mpr ⟨v, hv, ?_⟩
    rw [if_neg hvne]

/-- Witness for C7 applied to the concrete local user. -/
theorem C7_google_link_frame_witness :
    (NoDupBy User.email wStL.users ∧ wLocalUser ∈ wStL.users ∧
      wLocalUser.email ≠ "") ∧
    createOrUpdateGoogleUser wStL 9 wLocalUser.email (some "Dave") "G5" none =
      .ok (gUpd "G5" wLocalUser,
        { wStL with users := wStL.users.map (fun v => if v.email = wLocalUser.email then gUpd "G5" v else v) }) ∧
    (gUpd "G5" wLocalUser).password = wLocalUser.password :=
  ⟨by decide,
    (C7_google_link_frame wStL 9 wLocalUser (some "Dave") "G5" none
      (by decide) (by decide) (by decide)).1,
    (C7_google_link_frame wStL 9 wLocalUser (some "Dave") "G5" none
      (by decide) (by decide) (by decide)).2.2.2.1⟩

/-! Section: Claim C6 -/

/-- C6: `createOrUpdateGoogleUser` is idempotent — after a successful call
with (email, googleId), a second call with the same email and googleId
returns the very same user and leaves the store exactly as it was, and the
store holds exactly one row with that email.  (The `provider` argument is
constrained to its TypeScript type, absent or the literal "google".) -/
theorem C6_google_reconciliation_idempotent (st : StoreState)
    (t1 t2 : Nat) (e : String) (nm nm2 : Option String) (g : String)
    (pr pr2 : Option String) (u1 : User) (st1 : StoreState)
    (hemails : NoDupBy User.email st.users) (he : e ≠ "")
    (hpr : pr = none ∨ pr = some "google")
    (h1 : createOrUpdateGoogleUser st t1 e nm g pr = .ok (u1, st1)) :
    createOrUpdateGoogleUser st1 t2 e nm2 g pr2 = .ok (u1, st1) ∧
    (st1.users.filter (fun v => decide (v.email = e))).length = 1 := by
  unfold createOrUpdateGoogleUser at h1
  split at h1
  · -- insert branch: no user with this email existed
    split at h1
    · exact absurd h1 (by simp)
    next hc =>
      cases h1
      simp at hc
      have hfnone : st.users.find? (fun x => decide (x.email = e)) = none :=
        find?_eq_none_of fun x hx => by simpa using hc x hx
      have hfilnil : st.users.filter (fun x => decide (x.email = e)) = [] :=
        filter_eq_nil_of fun x hx => by simpa using hc x hx
      set N : User :=
        { id := genId st.nextId, name := nm.getD "Google User", email := e,
          password := [], googleId := some g,
          provider := some (pr.getD "google"), createdAt := t1 } with hN
      have hgN : gUpd g N = N := by
        rcases hpr with rfl | rfl <;> rfl
      have hget :
          getUserByEmail
            { st with users := st.users ++ [N], nextId := st.nextId + 1 } e =
            some N := by
        unfold getUserByEmail
        rw [if_neg he]
        show (st.users ++ [N]).find? (fun x => decide (x.email = e)) = some N
        rw [find?_append_none hfnone]
        simp [hN]
      have hfil1 :
          (st.users ++ [N]).filter (fun x => decide (x.email = e)) = [N] := by
        rw [List.filter_append, hfilnil]
        simp [hN]
      have hmap :
          (st.users ++ [N]).map
            (fun u => if u.email = e then gUpd g u else u) = st.users ++ [N] :=
        map_congr_id fun x hx => by
          rcases List.mem_append.mp hx with hx | hx
          · rw [if_neg (hc x hx)]
          · rcases List.mem_singleton.mp hx with rfl
            rw [if_pos (show N.email = e from rfl), hgN]
      constructor
      · unfold createOrUpdateGoogleUser
        rw [hget]
        simp only
        rw [hfil1]
        simp only [List.head?_cons]
        rw [hgN, hmap]
      · show ((st.users ++ [N]).filter (fun v => decide (v.email = e))).length = 1
        rw [hfil1]
        rfl
  next w0 hm =>
    -- update branch: a user with this email existed
    split at h1
    · exact absurd h1 (by simp)
    next w hh =>
      cases h1
      have hwfil : w ∈ st.users.filter (fun x => decide (x.email = e)) :=
        head?_mem hh
      have hwmem : w ∈ st.users := (List.mem_filter.mp hwfil).1
      have hwe : w.email = e := by
        simpa using (List.mem_filter.mp hwfil).2
      subst hwe
      have hfil : st.users.filter (fun x => decide (x.email = w.email)) = [w] :=
        filter_key_self hemails hwmem
      set m : User → User :=
        fun u => if u.email = w.email then gUpd g u else u with hmdef
      have hpm : ∀ x, (m x).email = x.email := fun x => by
        rw [hmdef]
        dsimp only
        by_cases hx : x.email = w.email
        · rw [if_pos hx]; rfl
        · rw [if_neg hx]
      have hpp : ∀ x,
          (fun v => decide (v.email = w.email)) (m x) =
            (fun v => decide (v.email = w.email)) x := fun x => by
        dsimp only
        rw [hpm x]
      have hfil1 :
          (st.users.map m).filter (fun x => decide (x.email = w.email)) =
            [gUpd g w] := by
        rw [filter_of_map hpp, hfil]
        have : m w = gUpd g w := by
          rw [hmdef]; dsimp only; rw [if_pos rfl]
        simp [this]
      have hget :
          getUserByEmail { st with users := st.users.map m } w.email =
            some (gUpd g w) := by
        unfold getUserByEmail
        rw [if_neg he]
        show (st.users.map m).find? (fun x => decide (x.email = w.email)) =
          some (gUpd g w)
        rw [find?_eq_head?_filter, hfil1]
        rfl
      have hmm : ∀ v, m (m v) = m v := fun v => by
        rw [hmdef]
        dsimp only
        by_cases hve : v.email = w.email
        · rw [if_pos hve, if_pos (show (gUpd g v).email = w.email from hve)]
          rfl
        · rw [if_neg hve, if_neg hve]
      have hmap2 : (st.users.map m).map m = st.users.map m := by
        rw [List.map_map]
        exact List.map_congr_left fun v _ => hmm v
      constructor
      · unfold createOrUpdateGoogleUser
        rw [hget]
        simp only
        rw [hfil1]
        simp only [List.head?_cons]
        rw [show gUpd g (gUpd g w) = gUpd g w from rfl, hmap2]
      · show ((st.users.map m).filter
            (fun v => decide (v.email = w.email))).length = 1
        rw [hfil1]
        rfl

/-- Witness for C6: Google sign-up for a fresh email followed by a second
identical reconciliation. -/
theorem C6_google_reconciliation_idempotent_witness :
    (NoDupBy User.email emptyState.users ∧ ("a@x.com" : String) ≠ "" ∧
      createOrUpdateGoogleUser emptyState 0 "a@x.com" none "G7" none =
        .ok (c4A, c4StA)) ∧
    createOrUpdateGoogleUser c4StA 5 "a@x.com" (some "Other") "G7"
      (some "google") = .ok (c4A, c4StA) ∧
    (c4StA.users.filter (fun v => decide (v.email = "a@x.com"))).length = 1 :=
  ⟨⟨by decide, by decide, by decide⟩,
    C6_google_reconciliation_idempotent emptyState 0 5 "a@x.com" none
      (some "Other") "G7" none (some "google") c4A c4StA (by decide)
      (by decide) (Or.inl rfl) (by decide)⟩

/-! Section: Claim C8 -/

/-- C8: registering with an email that already has a user answers the
duplicate-email 400 and performs no store mutation — the existing user's
record is untouched and no second user with that email is created. -/
theorem C8_duplicate_registration_rejected
    (scryptKdf : List Char → List Char → Bytes) (salt : List Char) (now : Nat)
    (st : StoreState) (u : User) (name : String) (pw : List Char)
    (hu : u ∈ st.users) (hname : name ≠ "") (hpw : pw ≠ [])
    (hemail : u.email ≠ "") :
    registerRoute scryptKdf salt now st name u.email pw =
      (.emailExists, none, st) := by
  obtain ⟨y, hy⟩ :
      ∃ y, st.users.find? (fun x => decide (x.email = u.email)) = some y :=
    find?_isSome_of hu (by simp)
  have hget : getUserByEmail st u.email = some y := by
    unfold getUserByEmail
    rw [if_neg hemail]
    exact hy
  have hguard : ¬(name = "" ∨ u.email = "" ∨ pw = []) := by
    rintro (h | h | h)
    · exact hname h
    · exact hemail h
    · exact hpw h
  unfold registerRoute
  rw [if_neg hguard, hget]

/-- Witness for C8: re-registering Dave's email fails with the duplicate
error and the store is returned unchanged. -/
theorem C8_duplicate_registration_rejected_witness :
    (wLocalUser ∈ wStL.users ∧ ("Eve" : String) ≠ "" ∧
      "pw".data ≠ ([] : List Char) ∧ wLocalUser.email ≠ "") ∧
    registerRoute kdf0 "cd".data 9 wStL "Eve" wLocalUser.email "pw".data =
      (.emailExists, none, wStL) :=
  ⟨by decide,
    C8_duplicate_registration_rejected kdf0 "cd".data 9 wStL wLocalUser "Eve"
      "pw".data (by decide) (by decide) (by decide) (by decide)⟩

/-! Section: Claim C9 -/

/-- C9: a session whose record references a user id that no longer exists
resolves to no user — the request proceeds unauthenticated and GET
/api/user answers 401 — instead of surfacing a dangling reference or an
error. -/
theorem C9_stale_session_self_heals (st : StoreState) (sid : String)
    (habs : ∀ u ∈ st.users, u.id ≠ sid) :
    resolveSession st (some ⟨sid⟩) = none ∧
    apiUser st (some ⟨sid⟩) = .notAuthenticated := by
  have hres : resolveSession st (some ⟨sid⟩) = none := by
    show getUser st sid = none
    unfold getUser
    by_cases h0 : sid = ""
    · rw [if_pos h0]
    · rw [if_neg h0]
      exact find?_eq_none_of fun x hx => by simpa using habs x hx
  refine ⟨hres, ?_⟩
  unfold apiUser
  rw [hres]

/-- Witness for C9: a session naming the deleted id "zz" in the two-user
store resolves to nothing and /api/user answers 401. -/
theorem C9_stale_session_self_heals_witness :
    (∀ u ∈ wSt.users, u.id ≠ "zz") ∧
    resolveSession wSt (some ⟨"zz"⟩) = none ∧
    apiUser wSt (some ⟨"zz"⟩) = .notAuthenticated :=
  ⟨by decide, C9_stale_session_self_heals wSt "zz" (by decide)⟩

/-! Section: Claim C10 -/

/-- C10: a successful registration and a successful Google sign-in each bind
a session to the created-or-resolved user before responding, so the very
next GET /api/user with that session returns the same user. -/
theorem C10_auth_success_binds_session
    (scryptKdf : List Char → List Char → Bytes) (salt : List Char) (now : Nat)
    (st : StoreState) (name email : String) (pw : List Char)
    (payload : GooglePayload)
    (hids : NoDupBy User.id st.users)
    (hne : ∀ v ∈ st.users, v.id ≠ "")
    (hfresh : ∀ v ∈ st.users, v.id ≠ genId st.nextId) :
    (name ≠ "" → email ≠ "" → pw ≠ [] → getUserByEmail st email = none →
      ∃ u st', registerRoute scryptKdf salt now st name email pw =
        (.created u, some ⟨u.id⟩, st') ∧
        apiUser st' (some ⟨u.id⟩) = .okUser u) ∧
    (payload.email ≠ "" → payload.sub ≠ "" →
      ∃ u st', googleAuthRoute now st payload =
        (.okUser u, some ⟨u.id⟩, st') ∧
        apiUser st' (some ⟨u.id⟩) = .okUser u) := by
  constructor
  · intro hn he hp hget
    have hfind : st.users.find? (fun x => decide (x.email = email)) = none := by
      unfold getUserByEmail at hget
      rw [if_neg he] at hget
      exact hget
    have hanyf : ¬(st.users.any (fun x => decide (x.email = email)) = true) := by
      simp only [List.any_eq_true, not_exists, not_and]
      intro x hx
      simpa using List.find?_eq_none.mp hfind x hx
    set N : User :=
      { id := genId st.nextId, name := name, email := email,
        password := hashPassword scryptKdf salt pw, googleId := none,
        provider := none, createdAt := now } with hN
    have hguard : ¬(name = "" ∨ email = "" ∨ pw = []) := by
      rintro (h | h | h)
      · exact hn h
      · exact he h
      · exact hp h
    refine ⟨N, { st with users := st.users ++ [N], nextId := st.nextId + 1 },
      ?_, ?_⟩
    · unfold registerRoute createUser
      rw [if_neg hguard, hget, if_neg hanyf]
    · have hgetU :
          getUser { st with users := st.users ++ [N], nextId := st.nextId + 1 }
            N.id = some N := by
        unfold getUser
        rw [if_neg (show ¬(N.id = "") from genId_ne_nil st.nextId)]
        show (st.users ++ [N]).find? (fun x => decide (x.id = N.id)) = some N
        rw [find?_append_none
          (find?_eq_none_of fun x hx => by simpa using hfresh x hx)]
        simp
      have hres :
          resolveSession
            { st with users := st.users ++ [N], nextId := st.nextId + 1 }
            (some ⟨N.id⟩) = some N := hgetU
      unfold apiUser
      rw [hres]
  · intro hge hgs
    have hguard : ¬(payload.email = "" ∨ payload.sub = "") := by
      rintro (h | h)
      · exact hge h
      · exact hgs h
    rcases hmm : getUserByEmail st payload.email with _ | w
    · -- fresh email: the insert branch runs
      have hfind :
          st.users.find? (fun x => decide (x.email = payload.email)) = none := by
        unfold getUserByEmail at hmm
        rw [if_neg hge] at hmm
        exact hmm
      have hanyf :
          ¬(st.users.any (fun x => decide (x.email = payload.email)) = true) := by
        simp only [List.any_eq_true, not_exists, not_and]
        intro x hx
        simpa using List.find?_eq_none.mp hfind x hx
      set N : User :=
        { id := genId st.nextId, name := googleName payload.name,
          email := payload.email, password := [],
          googleId := some payload.sub, provider := some "google",
          createdAt := now } with hN
      refine ⟨N, { st with users := st.users ++ [N], nextId := st.nextId + 1 },
        ?_, ?_⟩
      · unfold googleAuthRoute createOrUpdateGoogleUser
        rw [if_neg hguard, hmm]
        simp only
        rw [if_neg hanyf]
        rfl
      · have hgetU :
            getUser
              { st with users := st.users ++ [N], nextId := st.nextId + 1 }
              N.id = some N := by
          unfold getUser
          rw [if_neg (show ¬(N.id = "") from genId_ne_nil st.nextId)]
          show (st.users ++ [N]).find? (fun x => decide (x.id = N.id)) = some N
          rw [find?_append_none
            (find?_eq_none_of fun x hx => by simpa using hfresh x hx)]
          simp
        have hres :
            resolveSession
              { st with users := st.users ++ [N], nextId := st.nextId + 1 }
              (some ⟨N.id⟩) = some N := hgetU
        unfold apiUser
        rw [hres]
    · -- existing email: the update branch runs
      have hfind :
          st.users.find? (fun x => decide (x.email = payload.email)) = some w := by
        unfold getUserByEmail at hmm
        rw [if_neg hge] at hmm
        exact hmm
      have hwmem : w ∈ st.users := List.mem_of_find?_eq_some hfind
      have hwe : w.email = payload.email := by
        simpa using List.find?_some hfind
      have hhead :
          (st.users.filter (fun x => decide (x.email = payload.email))).head? =
            some w := by
        rw [← find?_eq_head?_filter]
        exact hfind
      set m : User → User :=
        fun u => if u.email = payload.email then gUpd payload.sub u else u
        with hmdef
      have hpm : ∀ x, (m x).id = x.id := fun x => by
        rw [hmdef]
        dsimp only
        by_cases hx : x.email = payload.email
        · rw [if_pos hx]; rfl
        · rw [if_neg hx]
      have hmw : m w = gUpd payload.sub w := by
        rw [hmdef]
        dsimp only
        rw [if_pos hwe]
      refine ⟨gUpd payload.sub w, { st with users := st.users.map m }, ?_, ?_⟩
      · unfold googleAuthRoute createOrUpdateGoogleUser
        rw [if_neg hguard, hmm]
        simp only
        rw [hhead]
      · have hgetU :
            getUser { st with users := st.users.map m }
              (gUpd payload.sub w).id = some (gUpd payload.sub w) := by
          unfold getUser
          rw [if_neg (show ¬((gUpd payload.sub w).id = "") from hne w hwmem)]
          show (st.users.map m).find? (fun x => decide (x.id = w.id)) =
            some (gUpd payload.sub w)
          rw [← hmw]
          exact find?_key_map hpm hids hwmem
        have hres :
            resolveSession { st with users := st.users.map m }
              (some ⟨(gUpd payload.sub w).id⟩) = some (gUpd payload.sub w) :=
          hgetU
        unfold apiUser
        rw [hres]

/-- Witness for C10: registration and Google sign-in starting from the empty
store, each followed by GET /api/user on the issued session. -/
theorem C10_auth_success_binds_session_witness :
    (∃ u st', registerRoute kdf0 "ab".data 0 emptyState "A" "a@x.com" "pw".data =
      (.created u, some ⟨u.id⟩, st') ∧ apiUser st' (some ⟨u.id⟩) = .okUser u) ∧
    (∃ u st', googleAuthRoute 0 emptyState ⟨"b@x.com", none, "G1"⟩ =
      (.okUser u, some ⟨u.id⟩, st') ∧ apiUser st' (some ⟨u.id⟩) = .okUser u) := by
  have h := C10_auth_success_binds_session kdf0 "ab".data 0 emptyState "A"
    "a@x.com" "pw".data ⟨"b@x.com", none, "G1"⟩ (by decide) (by decide)
    (by decide)
  exact ⟨h.1 (by decide) (by decide) (by decide) (by decide),
    h.2 (by decide) (by decide)⟩

end TodoApp
